import Mathlib

/-! DALI `TransformTranslation` operator.

A shallow embedding of
`dali/operators/geometry/affine_transforms/transform_translation.cc`
(class `TransformTranslationCPU`) and theorems about it.

Conventions of the embedding.

* The scalar type `T` of the matrices and of the offset values is a parameter.
  `DefineTransforms` only copies values and writes the constants `0` and `1`,
  so `[Zero T] [One T]` is all it needs; statements about matrix products
  take `[Semiring T]` (exact arithmetic).
* All C++ loop counters are `int`; they range over container sizes, so they
  are natural numbers here.
* An access that C++ leaves undefined (an index past the end of a vector, of
  an argument batch or of a matrix) is an explicit `Error.OutOfRange`, and a
  failed `assert` is `Error.AssertionFailed`.  Every function is total.
-/

namespace dali

/-- Error kinds.  The first four are the kinds the specification names; the
last two stand for an out-of-range access and for a failed `assert`. -/
inductive Error where
  | ShapeMismatch
  | UnsupportedDimensionality
  | InvalidArgument
  | DimensionMismatch
  | OutOfRange
  | AssertionFailed
  deriving DecidableEq, Repr

/-- Modelled from the spec: the type `affine_mat_t<T, mat_dim>` is declared in
a header that is not part of the sources at hand.  It is a square
`mat_dim × mat_dim` matrix of scalars, indexed by (row, column). -/
abbrev affine_mat_t (T : Type) (mat_dim : Nat) : Type :=
  Matrix (Fin mat_dim) (Fin mat_dim) T

/-- Modelled from the spec: `affine_mat_t<T, mat_dim>::identity()`, the
identity matrix of size `mat_dim × mat_dim` (ones on the diagonal, zeros
elsewhere). -/
def affine_mat_t.identity {T : Type} [Zero T] [One T] {mat_dim : Nat} :
    affine_mat_t T mat_dim :=
  fun r c => if r = c then 1 else 0

/-- Modelled from the spec: the element assignment `mat(r, c) = v` of
`affine_mat_t`.  Row and column are plain integers in the source, so the
write is checked here: an index outside the matrix is `OutOfRange`. -/
def affine_mat_t.set {T : Type} {mat_dim : Nat} (mat : affine_mat_t T mat_dim)
    (r c : Nat) (v : T) : Except Error (affine_mat_t T mat_dim) :=
  if r < mat_dim ∧ c < mat_dim then
    .ok (fun r' c' => if r'.val = r ∧ c'.val = c then v else mat r' c')
  else
    .error .OutOfRange

/-- Rows of a matrix as nested lists, for displaying concrete results. -/
def affine_mat_t.toLists {T : Type} {mat_dim : Nat} (mat : affine_mat_t T mat_dim) :
    List (List T) :=
  List.ofFn (fun r => List.ofFn (fun c => mat r c))

/-- Checked read `v[d]` of a `std::vector` (the source reads through the raw
pointer `offset_[i].data()`, which is undefined past the end). -/
def vecGet {α : Type} (v : List α) (d : Nat) : Except Error α :=
  match v[d]? with
  | some x => .ok x
  | none => .error .OutOfRange

/-- Modelled from the spec: the source mode of an argument (spec §3):
`Constant`, one value sequence shared by all samples, or `PerSample`, one
value sequence per sample read from a companion input. -/
inductive SourceMode where
  | Constant
  | PerSample
  deriving DecidableEq, Repr

/-- Modelled from the spec: the part of `OpSpec` that concerns the `offset`
argument: how it was supplied and, for a constant, its value. -/
structure OpSpec (T : Type) where
  offset_mode : SourceMode
  offset_constant : List T

/-- Modelled from the spec: the part of the workspace argument resolution
consumes: the batch size `N` and, for a per-sample argument, the companion
input with one value sequence per sample. -/
structure workspace_t (T : Type) where
  batch_size : Nat
  offset_input : List (List T)

/-- Modelled from the spec: the class `Argument<std::vector<float>>` (declared
in the absent base header).  `mode` is fixed at construction; `data` holds the
values resolved for the current batch, one sequence per sample. -/
structure Argument (T : Type) where
  mode : SourceMode
  data : List (List T)

/-- Modelled from the spec: constructor `Argument(name, spec)`; no values are
resolved yet. -/
def Argument.ofSpec {T : Type} (spec : OpSpec T) : Argument T :=
  { mode := spec.offset_mode, data := [] }

/-- Modelled from the spec: `Argument::IsArgInput()`, true iff the argument is
supplied per sample through an argument input. -/
def Argument.IsArgInput {T : Type} (a : Argument T) : Bool :=
  match a.mode with
  | .PerSample => true
  | .Constant => false

/-- Modelled from the spec: `Argument::IsDefined()`.  The schema declares
`offset` as a required argument, so one of the two modes always applies. -/
def Argument.IsDefined {T : Type} (a : Argument T) : Bool :=
  match a.mode with
  | .PerSample => true
  | .Constant => true

/-- Modelled from the spec: `Argument::size()`, the number of resolved
per-sample values. -/
def Argument.size {T : Type} (a : Argument T) : Nat :=
  a.data.length

/-- Modelled from the spec: `Argument::operator[]`, the value sequence of
sample `i`; past the end is `OutOfRange`. -/
def Argument.get {T : Type} (a : Argument T) (i : Nat) : Except Error (List T) :=
  vecGet a.data i

/-- Modelled from the spec: the uniformity check of argument resolution
(spec §4.1): all sequences of a batch have the length of the first one. -/
def is_uniform {T : Type} (samples : List (List T)) : Bool :=
  match samples with
  | [] => true
  | s :: rest => rest.all (fun s' => s'.length == s.length)

/-- Modelled from the spec: `Argument::Read(spec, ws)` (spec §4.1).  In
`Constant` mode every sample of the batch uses the identical declared
sequence; in `PerSample` mode each sample supplies its own sequence and all
sequences must have equal length, else `ShapeMismatch`. -/
def Argument.Read {T : Type} (a : Argument T) (spec : OpSpec T) (ws : workspace_t T) :
    Except Error (Argument T) :=
  match a.mode with
  | .Constant =>
    .ok { a with data := List.replicate ws.batch_size spec.offset_constant }
  | .PerSample =>
    if is_uniform ws.offset_input then
      .ok { a with data := ws.offset_input }
    else
      .error .ShapeMismatch

/-- State of a `TransformTranslationCPU` operator: the member `offset_` and
the member `ndim_` inherited from `TransformBaseOp`. -/
structure TransformTranslationCPU (T : Type) where
  offset_ : Argument T
  ndim_ : Nat

/-- Constructor `TransformTranslationCPU(spec)`: `offset_("offset", spec)`.
The initial value of `ndim_` is immaterial (it is set by `ProcessArgs`). -/
def TransformTranslationCPU.ofSpec {T : Type} (spec : OpSpec T) :
    TransformTranslationCPU T :=
  { offset_ := Argument.ofSpec spec, ndim_ := 0 }

/-- The supported dimensionalities, `using SupportedDims = dims<1, 2, 3, 4, 5, 6>;`. -/
def SupportedDims : List Nat := [1, 2, 3, 4, 5, 6]

/-- The inner loop of `DefineTransforms`:
`for (int d = 0; d < ndim; d++) mat(d, ndim) = offset[d];`
with `ndim = mat_dim - 1`. -/
def DefineTransforms.fill {T : Type} (mat_dim : Nat) (offset : List T)
    (mat : affine_mat_t T mat_dim) : Except Error (affine_mat_t T mat_dim) :=
  let ndim := mat_dim - 1
  (List.range ndim).foldlM
    (fun mat d => do
      let x ← vecGet offset d
      mat.set d ndim x)
    mat

/-- The generator
`template <typename T, int mat_dim> void DefineTransforms(span<affine_mat_t<T, mat_dim>> matrices)`.
The span is passed in and the updated span is returned.  Per iteration:
`auto &mat = matrices[i];` (a checked access), `auto *offset = offset_[i].data();`,
`mat = identity();` followed by the inner loop, the result stored in slot `i`. -/
def TransformTranslationCPU.DefineTransforms {T : Type} [Zero T] [One T]
    (op : TransformTranslationCPU T) (mat_dim : Nat)
    (matrices : List (affine_mat_t T mat_dim)) :
    Except Error (List (affine_mat_t T mat_dim)) :=
  if matrices.length ≠ op.offset_.size then
    .error .AssertionFailed
  else
    (List.range matrices.length).foldlM
      (fun matrices i => do
        let _ ← vecGet matrices i
        let offset ← op.offset_.get i
        let mat ← DefineTransforms.fill mat_dim offset affine_mat_t.identity
        pure (matrices.set i mat))
      matrices

/-- Argument resolution
`void ProcessArgs(const OpSpec &spec, const workspace_t<CPUBackend> &ws)`:
`assert(offset_.IsDefined()); offset_.Read(spec, ws); ndim_ = offset_[0].size();` -/
def TransformTranslationCPU.ProcessArgs {T : Type} (op : TransformTranslationCPU T)
    (spec : OpSpec T) (ws : workspace_t T) : Except Error (TransformTranslationCPU T) :=
  if !op.offset_.IsDefined then
    .error .AssertionFailed
  else do
    let offset_ ← op.offset_.Read spec ws
    let first ← offset_.get 0
    pure { offset_ := offset_, ndim_ := first.length }

/-- The query `bool IsConstantTransform() const { return !offset_.IsArgInput(); }`. -/
def TransformTranslationCPU.IsConstantTransform {T : Type}
    (op : TransformTranslationCPU T) : Bool :=
  !op.offset_.IsArgInput

/-- A batch of output matrices together with their common dimension. -/
structure MatrixBatch (T : Type) where
  mat_dim : Nat
  matrices : List (affine_mat_t T mat_dim)

/-- Modelled from the spec: the dimension dispatch of the absent base class
`TransformBaseOp` (spec §4.2): the instantiation of `DefineTransforms` with
`mat_dim = ndim + 1` is selected when the resolved `ndim` is one of
`SupportedDims`; any other `ndim` fails with `UnsupportedDimensionality`.
The output span has one slot per resolved sample. -/
def TransformTranslationCPU.RunImpl {T : Type} [Zero T] [One T]
    (op : TransformTranslationCPU T) : Except Error (MatrixBatch T) :=
  if op.ndim_ ∈ SupportedDims then do
    let matrices ← op.DefineTransforms (op.ndim_ + 1)
      (List.replicate op.offset_.size (fun _ _ => 0))
    pure { mat_dim := op.ndim_ + 1, matrices := matrices }
  else
    .error .UnsupportedDimensionality

/-- Modelled from the spec: one batch invocation (spec §4.2, state machine
`Idle → ArgumentsResolved → MatricesGenerated → Idle`): `ProcessArgs`, then
the dispatched generator. -/
def TransformTranslationCPU.processBatch {T : Type} [Zero T] [One T]
    (op : TransformTranslationCPU T) (spec : OpSpec T) (ws : workspace_t T) :
    Except Error (MatrixBatch T) := do
  let op' ← op.ProcessArgs spec ws
  op'.RunImpl

/-- The translation matrix by `offset` in closed form: the identity with the
first `mat_dim - 1` entries of the last column replaced by the offset values. -/
def translationMatrix {T : Type} [Zero T] [One T] (mat_dim : Nat) (offset : List T) :
    affine_mat_t T mat_dim :=
  fun r c =>
    if r.val < mat_dim - 1 ∧ c.val = mat_dim - 1 then offset.getD r.val 0
    else affine_mat_t.identity r c

/-- A two-sample batch of 2-D offsets, `[1, 2]` and `[3, 4]`, resolved in
per-sample mode. -/
def exampleOp : TransformTranslationCPU Int :=
  { offset_ := { mode := .PerSample, data := [[1, 2], [3, 4]] }, ndim_ := 2 }

/-- Operator state holding the single resolved sample `v`. -/
def singleSample {T : Type} (mode : SourceMode) (v : List T) : TransformTranslationCPU T :=
  { offset_ := { mode := mode, data := [v] }, ndim_ := v.length }

/-- Modelled from the spec: an affine matrix read in homogeneous form
(spec §3): the top `mat_dim - 1` rows are those of `mat`, and the last row is
the implicit `[0, ..., 0, 1]`, whatever `mat` holds there. -/
def affine_mat_t.withImplicitLastRow {T : Type} [Zero T] [One T] {mat_dim : Nat}
    (mat : affine_mat_t T mat_dim) : affine_mat_t T mat_dim :=
  fun r c => if r.val < mat_dim - 1 then mat r c else affine_mat_t.identity r c

/-- Modelled from the spec: the affine composition of the absent base class
`TransformBaseOp` (spec §4.2), `output = generated ∘ input`: the product of
the two homogeneous matrices, of which the top `mat_dim - 1` rows are kept,
every last row being the implicit `[0, ..., 0, 1]`. -/
def affine_compose {T : Type} [Semiring T] {mat_dim : Nat}
    (generated input : affine_mat_t T mat_dim) : affine_mat_t T mat_dim :=
  affine_mat_t.withImplicitLastRow (generated.withImplicitLastRow * input.withImplicitLastRow)

/-- Modelled from the spec: the per-sample composition of a generated batch
with the input matrix batch (spec §4.2, §5): sample `i` combines generated
matrix `i` with input matrix `i`; a sample without an input matrix is an
out-of-range read. -/
def composeBatch {T : Type} [Semiring T] {mat_dim : Nat} :
    List (affine_mat_t T mat_dim) → List (affine_mat_t T mat_dim) →
      Except Error (List (affine_mat_t T mat_dim))
  | [], _ => .ok []
  | _ :: _, [] => .error .OutOfRange
  | g :: gs, m :: ms => do
    let rest ← composeBatch gs ms
    pure (affine_compose g m :: rest)

/-- Modelled from the spec: the dispatched generator of the absent base class
`TransformBaseOp` when an input matrix batch is present (spec §4.2): the
generated matrices are composed with the input matrices; an input batch whose
dimensionality disagrees with `ndim` fails with `DimensionMismatch`. -/
def TransformTranslationCPU.RunImplWithInput {T : Type} [Semiring T]
    (op : TransformTranslationCPU T) (input : MatrixBatch T) : Except Error (MatrixBatch T) :=
  if op.ndim_ ∈ SupportedDims then
    if h : input.mat_dim = op.ndim_ + 1 then do
      let generated ← op.DefineTransforms (op.ndim_ + 1)
        (List.replicate op.offset_.size (fun _ _ => 0))
      let matrices ← composeBatch generated (h ▸ input.matrices)
      pure { mat_dim := op.ndim_ + 1, matrices := matrices }
    else
      .error .DimensionMismatch
  else
    .error .UnsupportedDimensionality

/-! ## Auxiliary lemmas -/

theorem vecGet_of_lt {α : Type} (v : List α) (d : Nat) (h : d < v.length) :
    vecGet v d = .ok v[d] := by
  simp [vecGet, List.getElem?_eq_getElem h]

theorem vecGet_of_le {α : Type} (v : List α) (d : Nat) (h : v.length ≤ d) :
    vecGet v d = .error .OutOfRange := by
  simp [vecGet, List.getElem?_eq_none h]

/-- Invariant of the inner loop after `k` iterations. -/
theorem fill_loop {T : Type} (mat_dim : Nat) (offset : List T) [Zero T]
    (mat : affine_mat_t T mat_dim) (k : Nat) (hk : k ≤ offset.length)
    (hk' : k ≤ mat_dim - 1) :
    (List.range k).foldlM
        (fun (mat : affine_mat_t T mat_dim) d => do
          let x ← vecGet offset d
          mat.set d (mat_dim - 1) x)
        mat
      = .ok (fun r c =>
          if r.val < k ∧ c.val = mat_dim - 1 then offset.getD r.val 0 else mat r c) := by
  induction k with
  | zero => simp [pure, Except.pure]
  | succ k ih =>
    have h1 : k < offset.length := by omega
    have h2 : k < mat_dim ∧ mat_dim - 1 < mat_dim := by omega
    rw [List.range_succ, List.foldlM_append, ih (by omega) (by omega)]
    simp only [bind, Except.bind, List.foldlM_cons, List.foldlM_nil, vecGet_of_lt offset k h1,
      affine_mat_t.set, h2, and_self, if_true, pure, Except.pure]
    congr 1
    funext r c
    by_cases hr : r.val = k
    · by_cases hc : c.val = mat_dim - 1
      · simp [hr, hc, List.getD_eq_getElem?_getD, List.getElem?_eq_getElem h1]
      · simp [hr, hc]
    · have : r.val < k + 1 ↔ r.val < k := by omega
      simp [hr, this]

theorem fill_eq {T : Type} [Zero T] [One T] (mat_dim : Nat) (offset : List T)
    (h : mat_dim - 1 ≤ offset.length) :
    DefineTransforms.fill mat_dim offset affine_mat_t.identity
      = .ok (translationMatrix mat_dim offset) := by
  unfold DefineTransforms.fill
  exact fill_loop mat_dim offset affine_mat_t.identity (mat_dim - 1) h le_rfl

/-- Invariant of the outer loop after `k` iterations: the first `k` slots
hold the translation matrices of the first `k` samples, the other slots are
untouched. -/
theorem define_loop {T : Type} [Zero T] [One T] (offs : List (List T)) (mat_dim : Nat)
    (ms : List (affine_mat_t T mat_dim)) (hlen : ms.length = offs.length)
    (hoff : ∀ o ∈ offs, mat_dim - 1 ≤ o.length) (k : Nat) (hk : k ≤ ms.length) :
    (List.range k).foldlM
        (fun (matrices : List (affine_mat_t T mat_dim)) i => do
          let _ ← vecGet matrices i
          let offset ← vecGet offs i
          let mat ← DefineTransforms.fill mat_dim offset affine_mat_t.identity
          pure (matrices.set i mat))
        ms
      = .ok ((offs.take k).map (translationMatrix mat_dim) ++ ms.drop k) := by
  induction k with
  | zero => simp [pure, Except.pure]
  | succ k ih =>
    have h1 : k < offs.length := by omega
    have h2 : mat_dim - 1 ≤ offs[k].length := hoff _ (List.getElem_mem h1)
    have h3 : k < ((offs.take k).map (translationMatrix mat_dim) ++ ms.drop k).length := by
      simp; omega
    have h4 : ((offs.take k).map (translationMatrix mat_dim)).length = k := by
      simp; omega
    rw [List.range_succ, List.foldlM_append, ih (by omega)]
    simp only [bind, Except.bind, List.foldlM_cons, List.foldlM_nil, vecGet_of_lt offs k h1,
      vecGet_of_lt _ k h3, fill_eq mat_dim _ h2, pure, Except.pure]
    congr 1
    rw [List.set_append_right _ _ (by omega), h4, Nat.sub_self,
      List.drop_eq_getElem_cons (by omega : k < ms.length), List.set_cons_zero,
      List.take_succ, List.getElem?_eq_getElem h1]
    simp only [Option.toList, List.map_append, List.map_cons, List.map_nil, List.append_assoc,
      List.singleton_append]

/-- Closed form of `DefineTransforms` on a well-formed batch: one slot per
sample and every sample with at least `mat_dim - 1` values. -/
theorem DefineTransforms_eq {T : Type} [Zero T] [One T] (op : TransformTranslationCPU T)
    (mat_dim : Nat) (ms : List (affine_mat_t T mat_dim))
    (hlen : ms.length = op.offset_.size)
    (hoff : ∀ o ∈ op.offset_.data, mat_dim - 1 ≤ o.length) :
    op.DefineTransforms mat_dim ms
      = .ok (op.offset_.data.map (translationMatrix mat_dim)) := by
  have hlen' : ms.length = op.offset_.data.length := hlen
  unfold TransformTranslationCPU.DefineTransforms
  rw [if_neg (by simpa using hlen)]
  have := define_loop op.offset_.data mat_dim ms hlen' hoff ms.length le_rfl
  simp only [Argument.get]
  rw [this]
  simp [hlen']


/-- Componentwise sum of two offset vectors. -/
theorem getD_zipWith_add {T : Type} [AddZeroClass T] (v1 v2 : List T)
    (h : v1.length = v2.length) (d : Nat) :
    (List.zipWith (· + ·) v1 v2).getD d 0 = v1.getD d 0 + v2.getD d 0 := by
  simp only [List.getD_eq_getElem?_getD, List.getElem?_zipWith]
  by_cases hd : d < v1.length
  · have hd2 : d < v2.length := by omega
    simp [List.getElem?_eq_getElem hd, List.getElem?_eq_getElem hd2]
  · have h1 : v1[d]? = none := List.getElem?_eq_none (by omega)
    have h2 : v2[d]? = none := List.getElem?_eq_none (by omega)
    simp [h1, h2]

/-- The product of two translation matrices is the translation by the sum. -/
theorem translationMatrix_mul {T : Type} [Semiring T] (mat_dim : Nat) (v1 v2 : List T)
    (h : v1.length = v2.length) :
    translationMatrix mat_dim v2 * translationMatrix mat_dim v1
      = translationMatrix mat_dim (List.zipWith (· + ·) v1 v2) := by
  ext r c
  rw [Matrix.mul_apply]
  by_cases hr : r.val < mat_dim - 1
  · -- a row of the affine part: only the terms `k = r` and `k = mat_dim - 1` contribute
    have hlast : mat_dim - 1 < mat_dim := by omega
    have hr' : ¬ r.val = mat_dim - 1 := by omega
    have hz := getD_zipWith_add v1 v2 h r.val
    simp only [List.getD_eq_getElem?_getD] at hz
    have hne : r ≠ (⟨mat_dim - 1, hlast⟩ : Fin mat_dim) := by
      intro e
      have := congrArg Fin.val e
      simp at this
      omega
    rw [Finset.sum_eq_add_of_mem r ⟨mat_dim - 1, hlast⟩ (Finset.mem_univ _) (Finset.mem_univ _) hne]
    · by_cases hc : c.val = mat_dim - 1
      · have hrc : r ≠ c := by
          intro e
          rw [e] at hr
          omega
        have hc' : (⟨mat_dim - 1, hlast⟩ : Fin mat_dim) = c := Fin.ext hc.symm
        simp [translationMatrix, affine_mat_t.identity, hr, hr', hc, hrc, hc', hz]
      · have hc' : ¬ (⟨mat_dim - 1, hlast⟩ : Fin mat_dim) = c := by
          intro e
          exact hc (congrArg Fin.val e).symm
        simp [translationMatrix, affine_mat_t.identity, hr, hr', hc, hc']
    · intro k _ hk
      have hk1 : ¬ r = k := fun e => hk.1 e.symm
      have hk2 : ¬ k.val = mat_dim - 1 := by
        intro e
        exact hk.2 (Fin.ext e)
      simp [translationMatrix, affine_mat_t.identity, hk1, hk2]
  · -- the last row
    rw [Finset.sum_eq_single r]
    · simp [translationMatrix, affine_mat_t.identity, hr]
    · intro k _ hk
      have hk1 : ¬ r = k := fun e => hk e.symm
      simp [translationMatrix, affine_mat_t.identity, hr, hk1]
    · intro hmem
      exact absurd (Finset.mem_univ r) hmem

theorem IsDefined_eq_true {T : Type} (a : Argument T) : a.IsDefined = true := by
  unfold Argument.IsDefined
  cases a.mode <;> rfl

/-- A uniform batch: every sample has the length of the first one. -/
theorem is_uniform_cons {T : Type} (s : List T) (rest : List (List T))
    (h : is_uniform (s :: rest) = true) : ∀ o ∈ s :: rest, o.length = s.length := by
  intro o ho
  rcases List.mem_cons.mp ho with rfl | ho
  · rfl
  · simp only [is_uniform, List.all_eq_true, beq_iff_eq] at h
    exact h o ho

/-- Argument resolution yields samples of one common length. -/
theorem Read_uniform {T : Type} (a a' : Argument T) (spec : OpSpec T) (ws : workspace_t T)
    (h : a.Read spec ws = .ok a') (first : List T) (rest : List (List T))
    (hd : a'.data = first :: rest) : ∀ o ∈ a'.data, o.length = first.length := by
  unfold Argument.Read at h
  cases hm : a.mode with
  | Constant =>
    simp only [hm, Except.ok.injEq] at h
    subst h
    intro o ho
    simp only at hd ho
    have h1 := List.eq_of_mem_replicate ho
    have h2 : first ∈ List.replicate ws.batch_size spec.offset_constant := by
      rw [hd]
      exact List.mem_cons_self _ _
    rw [h1, List.eq_of_mem_replicate h2]
  | PerSample =>
    simp only [hm] at h
    by_cases hu : is_uniform ws.offset_input = true
    · simp only [hu, if_true, Except.ok.injEq] at h
      subst h
      simp only at hd ⊢
      rw [hd] at hu ⊢
      exact is_uniform_cons first rest hu
    · simp [hu] at h

/-- Argument resolution followed by the read of the first sample. -/
theorem ProcessArgs_eq {T : Type} (op : TransformTranslationCPU T) (spec : OpSpec T)
    (ws : workspace_t T) (a : Argument T) (h : op.offset_.Read spec ws = .ok a) :
    op.ProcessArgs spec ws
      = match a.data with
        | [] => .error .OutOfRange
        | first :: _ => .ok { offset_ := a, ndim_ := first.length } := by
  unfold TransformTranslationCPU.ProcessArgs
  simp only [IsDefined_eq_true, Bool.not_true, Bool.false_eq_true, if_false, h, bind,
    Except.bind, Argument.get, vecGet]
  cases a.data <;> simp [pure, Except.pure]

theorem mem_SupportedDims (n : Nat) : n ∈ SupportedDims ↔ 1 ≤ n ∧ n ≤ 6 := by
  simp only [SupportedDims, List.mem_cons, List.mem_singleton, List.not_mem_nil, or_false]
  omega

/-- The dispatched generator on a well-formed operator state. -/
theorem RunImpl_eq {T : Type} [Zero T] [One T] (op : TransformTranslationCPU T)
    (hdim : 1 ≤ op.ndim_ ∧ op.ndim_ ≤ 6) (hoff : ∀ o ∈ op.offset_.data, o.length = op.ndim_) :
    op.RunImpl
      = .ok { mat_dim := op.ndim_ + 1,
              matrices := op.offset_.data.map (translationMatrix (op.ndim_ + 1)) } := by
  unfold TransformTranslationCPU.RunImpl
  rw [if_pos ((mem_SupportedDims _).mpr hdim),
    DefineTransforms_eq op (op.ndim_ + 1) _ (by simp)
      (by
        intro o ho
        rw [hoff o ho]
        exact Nat.le_refl _)]
  rfl

/-! ## The generator `DefineTransforms` -/

/-- C1: fill rule of `DefineTransforms`.  With `mat_dim = ndim + 1`, one
output slot per sample and every sample carrying `ndim` offset values, the
call succeeds, keeps the number of slots, and for every sample index `i` the
matrix in slot `i` has entry `(d, ndim)` equal to the `d`-th offset value of
sample `i` for every `d < ndim`, and every other entry equal to the entry of
the identity matrix; in particular the top-left `ndim × ndim` block is the
identity and the last row is `[0, ..., 0, 1]`. -/
theorem C1_fill_rule {T : Type} [Zero T] [One T] (ndim : Nat)
    (op : TransformTranslationCPU T) (matrices : List (affine_mat_t T (ndim + 1)))
    (hlen : matrices.length = op.offset_.size)
    (hoff : ∀ o ∈ op.offset_.data, o.length = ndim) :
    ∃ out, op.DefineTransforms (ndim + 1) matrices = .ok out ∧
      out.length = matrices.length ∧
      ∀ (i : Nat) (offset : List T), op.offset_.data[i]? = some offset →
        ∃ mat, out[i]? = some mat ∧
          (∀ (d : Nat) (hd : d < ndim),
            offset[d]? = some (mat ⟨d, Nat.lt_succ_of_lt hd⟩ (Fin.last ndim))) ∧
          (∀ r c : Fin (ndim + 1), ¬ (r.val < ndim ∧ c.val = ndim) →
            mat r c = (1 : Matrix (Fin (ndim + 1)) (Fin (ndim + 1)) T) r c) ∧
          (∀ r c : Fin (ndim + 1), r.val < ndim → c.val < ndim →
            mat r c = if r = c then 1 else 0) ∧
          (∀ c : Fin (ndim + 1), mat (Fin.last ndim) c = if c = Fin.last ndim then 1 else 0) := by
  have hoff' : ∀ o ∈ op.offset_.data, ndim + 1 - 1 ≤ o.length := by
    intro o ho
    rw [hoff o ho]
    exact Nat.le_refl _
  refine ⟨_, DefineTransforms_eq op (ndim + 1) matrices hlen hoff', ?_, ?_⟩
  · rw [List.length_map]
    exact hlen.symm
  · intro i offset hi
    have hoi : offset.length = ndim := by
      obtain ⟨hlt, rfl⟩ := List.getElem?_eq_some_iff.mp hi
      exact hoff _ (List.getElem_mem hlt)
    refine ⟨translationMatrix (ndim + 1) offset, by simp [List.getElem?_map, hi], ?_, ?_, ?_, ?_⟩
    · intro d hd
      have hd' : d < offset.length := by omega
      simp [translationMatrix, hd, List.getD_eq_getElem?_getD, List.getElem?_eq_getElem hd']
    · intro r c hrc
      have hrc' : ¬ (r.val < ndim + 1 - 1 ∧ c.val = ndim + 1 - 1) := by simpa using hrc
      simp only [translationMatrix, affine_mat_t.identity, if_neg hrc', Matrix.one_apply]
    · intro r c _ hc
      have hrc' : ¬ (r.val < ndim + 1 - 1 ∧ c.val = ndim + 1 - 1) := by
        simp only [Nat.add_sub_cancel]
        omega
      simp only [translationMatrix, affine_mat_t.identity, if_neg hrc']
    · intro c
      have hrc' : ¬ ((Fin.last ndim).val < ndim + 1 - 1 ∧ c.val = ndim + 1 - 1) := by
        simp
      simp only [translationMatrix, affine_mat_t.identity, if_neg hrc']
      by_cases h : c = Fin.last ndim
      · simp [h]
      · have h' : ¬ Fin.last ndim = c := fun e => h e.symm
        simp [h, h']

/-- Witness for C1 at `ndim = 2` with offsets `[1, 2]` and `[3, 4]`: the
hypotheses hold, the theorem applies, and the two matrices written are
`[[1,0,1],[0,1,2],[0,0,1]]` and `[[1,0,3],[0,1,4],[0,0,1]]`. -/
theorem C1_fill_rule_witness :
    ([0, 0] : List (affine_mat_t Int 3)).length = exampleOp.offset_.size ∧
    (∀ o ∈ exampleOp.offset_.data, o.length = 2) ∧
    (∃ out, exampleOp.DefineTransforms 3 [0, 0] = .ok out ∧
      out.length = ([0, 0] : List (affine_mat_t Int 3)).length ∧
      ∀ (i : Nat) (offset : List Int), exampleOp.offset_.data[i]? = some offset →
        ∃ mat, out[i]? = some mat ∧
          (∀ (d : Nat) (hd : d < 2),
            offset[d]? = some (mat ⟨d, Nat.lt_succ_of_lt hd⟩ (Fin.last 2))) ∧
          (∀ r c : Fin 3, ¬ (r.val < 2 ∧ c.val = 2) →
            mat r c = (1 : Matrix (Fin 3) (Fin 3) Int) r c) ∧
          (∀ r c : Fin 3, r.val < 2 → c.val < 2 → mat r c = if r = c then 1 else 0) ∧
          (∀ c : Fin 3, mat (Fin.last 2) c = if c = Fin.last 2 then 1 else 0)) ∧
    List.map affine_mat_t.toLists <$> exampleOp.DefineTransforms 3 [0, 0]
      = .ok [[[1, 0, 1], [0, 1, 2], [0, 0, 1]], [[1, 0, 3], [0, 1, 4], [0, 0, 1]]] :=
  ⟨rfl, by decide, C1_fill_rule 2 exampleOp [0, 0] rfl (by decide), rfl⟩

/-- C2: composition of generated translations is additive.  For offset
vectors `v1`, `v2` of length `ndim` over a semiring (exact arithmetic),
`DefineTransforms` succeeds on each of `v1`, `v2` and the componentwise sum
`v1 + v2`, and the product of the matrix generated for `v2` with the matrix
generated for `v1` equals the matrix generated for `v1 + v2`, in either
order. -/
theorem C2_composition_additive {T : Type} [Semiring T] (ndim : Nat) (mode : SourceMode)
    (v1 v2 : List T) (h1 : v1.length = ndim) (h2 : v2.length = ndim)
    (s1 s2 s12 : affine_mat_t T (ndim + 1)) :
    ∃ m1 m2 m12 : affine_mat_t T (ndim + 1),
      (singleSample mode v1).DefineTransforms (ndim + 1) [s1] = .ok [m1] ∧
      (singleSample mode v2).DefineTransforms (ndim + 1) [s2] = .ok [m2] ∧
      (singleSample mode (List.zipWith (· + ·) v1 v2)).DefineTransforms (ndim + 1) [s12]
        = .ok [m12] ∧
      m2 * m1 = m12 ∧ m1 * m2 = m12 := by
  have key : ∀ (v : List T) (s : affine_mat_t T (ndim + 1)), v.length = ndim →
      (singleSample mode v).DefineTransforms (ndim + 1) [s]
        = .ok [translationMatrix (ndim + 1) v] := by
    intro v s hv
    have := DefineTransforms_eq (singleSample mode v) (ndim + 1) [s] rfl
      (by
        intro o ho
        simp only [singleSample, List.mem_singleton] at ho
        rw [ho, hv]
        exact Nat.le_refl _)
    simpa [singleSample] using this
  have h12 : (List.zipWith (· + ·) v1 v2).length = ndim := by
    simp [h1, h2]
  refine ⟨_, _, _, key v1 s1 h1, key v2 s2 h2, key _ s12 h12, ?_, ?_⟩
  · exact translationMatrix_mul (ndim + 1) v1 v2 (h1.trans h2.symm)
  · have hcomm : List.zipWith (· + ·) v2 v1 = List.zipWith (· + ·) v1 v2 := by
      apply List.ext_getElem
      · simp [h1, h2]
      · intro n hn1 hn2
        simp [add_comm]
    rw [translationMatrix_mul (ndim + 1) v2 v1 (h2.trans h1.symm), hcomm]

/-- Witness for C2: translation by `[1, 2]` composed with translation by
`[5, 5]` is translation by `[6, 7]`. -/
theorem C2_composition_additive_witness :
    ([1, 2] : List Int).length = 2 ∧ ([5, 5] : List Int).length = 2 ∧
    (∃ m1 m2 m12 : affine_mat_t Int 3,
      (singleSample .PerSample [1, 2]).DefineTransforms 3 [0] = .ok [m1] ∧
      (singleSample .PerSample [5, 5]).DefineTransforms 3 [0] = .ok [m2] ∧
      (singleSample .PerSample (List.zipWith (· + ·) [1, 2] [5, 5])).DefineTransforms 3 [0]
        = .ok [m12] ∧
      m2 * m1 = m12 ∧ m1 * m2 = m12) ∧
    List.zipWith (· + ·) ([1, 2] : List Int) [5, 5] = [6, 7] ∧
    List.map affine_mat_t.toLists <$> (singleSample .PerSample [6, 7]).DefineTransforms 3 [0]
      = .ok [[[1, 0, 6], [0, 1, 7], [0, 0, 1]]] ∧
    (translationMatrix 3 [5, 5] * translationMatrix 3 ([1, 2] : List Int)).toLists
      = [[1, 0, 6], [0, 1, 7], [0, 0, 1]] :=
  ⟨rfl, rfl, C2_composition_additive 2 .PerSample [1, 2] [5, 5] rfl rfl 0 0 0, rfl, rfl,
    by decide⟩

/-- C3: all-zero offsets give the identity.  On a batch with one slot per
sample and `ndim` values per sample, `DefineTransforms` succeeds and every
sample whose offset vector consists of `ndim` zeros gets the identity matrix
of size `ndim + 1`. -/
theorem C3_zero_offset_identity {T : Type} [Zero T] [One T] (ndim : Nat)
    (op : TransformTranslationCPU T) (matrices : List (affine_mat_t T (ndim + 1)))
    (hlen : matrices.length = op.offset_.size)
    (hoff : ∀ o ∈ op.offset_.data, o.length = ndim) :
    ∃ out, op.DefineTransforms (ndim + 1) matrices = .ok out ∧
      ∀ i : Nat, op.offset_.data[i]? = some (List.replicate ndim 0) →
        out[i]? = some (1 : Matrix (Fin (ndim + 1)) (Fin (ndim + 1)) T) := by
  have hoff' : ∀ o ∈ op.offset_.data, ndim + 1 - 1 ≤ o.length := by
    intro o ho
    rw [hoff o ho]
    exact Nat.le_refl _
  refine ⟨_, DefineTransforms_eq op (ndim + 1) matrices hlen hoff', ?_⟩
  intro i hi
  rw [List.getElem?_map, hi, Option.map_some']
  congr 1
  ext r c
  simp only [translationMatrix, affine_mat_t.identity, Matrix.one_apply]
  by_cases hrc : r.val < ndim + 1 - 1 ∧ c.val = ndim + 1 - 1
  · have hne : r ≠ c := by
      intro e
      rw [e] at hrc
      omega
    have hr : r.val < ndim := by simpa using hrc.1
    simp [hrc, hne, List.getD_eq_getElem?_getD, List.getElem?_replicate, hr]
  · rw [if_neg hrc]

/-- Witness for C3 at `ndim = 2`: a batch whose second sample is `[0, 0]`. -/
theorem C3_zero_offset_identity_witness :
    ([0, 0] : List (affine_mat_t Int 3)).length
        = (⟨⟨.PerSample, [[1, 2], [0, 0]]⟩, 2⟩ : TransformTranslationCPU Int).offset_.size ∧
    (∃ out, (⟨⟨.PerSample, [[1, 2], [0, 0]]⟩, 2⟩ : TransformTranslationCPU Int).DefineTransforms
          3 [0, 0] = .ok out ∧
      ∀ i : Nat, ([[1, 2], [0, 0]] : List (List Int))[i]? = some (List.replicate 2 0) →
        out[i]? = some (1 : Matrix (Fin 3) (Fin 3) Int)) ∧
    ([[1, 2], [0, 0]] : List (List Int))[1]? = some (List.replicate 2 0) :=
  ⟨rfl, C3_zero_offset_identity 2 ⟨⟨.PerSample, [[1, 2], [0, 0]]⟩, 2⟩ [0, 0] rfl (by decide), rfl⟩

/-! ## Argument resolution `ProcessArgs` -/

/-- C4: after `ProcessArgs`, `ndim_` is the length of the first sample.
Whenever argument resolution yields a non-empty batch `first :: rest`,
`ProcessArgs` succeeds, keeps the resolved batch, and sets `ndim_` to
`offset_[0].size()`, the length of `first`; when all samples of the batch
have equal length, `ndim_` is the length of every sample. -/
theorem C4_ndim_is_first_sample_length {T : Type} (op : TransformTranslationCPU T)
    (spec : OpSpec T) (ws : workspace_t T) (a : Argument T) (first : List T)
    (rest : List (List T)) (hread : op.offset_.Read spec ws = .ok a)
    (hne : a.data = first :: rest) :
    ∃ op', op.ProcessArgs spec ws = .ok op' ∧ op'.offset_ = a ∧
      op'.offset_.get 0 = .ok first ∧ op'.ndim_ = first.length ∧
      ((∀ o ∈ op'.offset_.data, ∀ o' ∈ op'.offset_.data, o.length = o'.length) →
        ∀ o ∈ op'.offset_.data, o.length = op'.ndim_) := by
  refine ⟨{ offset_ := a, ndim_ := first.length }, ?_, rfl, ?_, rfl, ?_⟩
  · rw [ProcessArgs_eq op spec ws a hread, hne]
  · simp [Argument.get, vecGet, hne]
  · intro hall o ho
    exact hall o ho first (by simp [hne])

/-- Witness for C4: the per-sample batch `[1, 2]`, `[3, 4]` resolves to
`ndim_ = 2`. -/
theorem C4_ndim_is_first_sample_length_witness :
    ((TransformTranslationCPU.ofSpec ⟨.PerSample, []⟩ : TransformTranslationCPU Int).offset_.Read
        ⟨.PerSample, []⟩ ⟨2, [[1, 2], [3, 4]]⟩ = .ok ⟨.PerSample, [[1, 2], [3, 4]]⟩) ∧
    (∃ op', (TransformTranslationCPU.ofSpec ⟨.PerSample, []⟩ : TransformTranslationCPU Int).ProcessArgs
          ⟨.PerSample, []⟩ ⟨2, [[1, 2], [3, 4]]⟩ = .ok op' ∧
      op'.offset_ = ⟨.PerSample, [[1, 2], [3, 4]]⟩ ∧
      op'.offset_.get 0 = .ok [1, 2] ∧ op'.ndim_ = ([1, 2] : List Int).length ∧
      ((∀ o ∈ op'.offset_.data, ∀ o' ∈ op'.offset_.data, o.length = o'.length) →
        ∀ o ∈ op'.offset_.data, o.length = op'.ndim_)) :=
  ⟨rfl, C4_ndim_is_first_sample_length _ ⟨.PerSample, []⟩ ⟨2, [[1, 2], [3, 4]]⟩
    ⟨.PerSample, [[1, 2], [3, 4]]⟩ [1, 2] [[3, 4]] rfl rfl⟩

/-- C5: unequal lengths fail with `ShapeMismatch`.  In per-sample mode, when
two samples of the batch have offset sequences of different lengths,
`ProcessArgs` fails with `ShapeMismatch` and establishes no `ndim_`. -/
theorem C5_unequal_lengths_shape_mismatch {T : Type} (op : TransformTranslationCPU T)
    (spec : OpSpec T) (ws : workspace_t T) (hmode : op.offset_.mode = .PerSample)
    (i j : Nat) (oi oj : List T) (hi : ws.offset_input[i]? = some oi)
    (hj : ws.offset_input[j]? = some oj) (hlen : oi.length ≠ oj.length) :
    op.ProcessArgs spec ws = .error .ShapeMismatch := by
  have hu : ¬ is_uniform ws.offset_input = true := by
    intro hu
    cases hin : ws.offset_input with
    | nil => simp [hin] at hi
    | cons s rest =>
      rw [hin] at hu hi hj
      have h1 := is_uniform_cons s rest hu oi (List.getElem?_mem hi)
      have h2 := is_uniform_cons s rest hu oj (List.getElem?_mem hj)
      exact hlen (h1.trans h2.symm)
  unfold TransformTranslationCPU.ProcessArgs Argument.Read
  simp only [IsDefined_eq_true, Bool.not_true, Bool.false_eq_true, if_false, hmode, hu, bind,
    Except.bind]

/-- Witness for C5: sample 0 has 2 values and sample 1 has 3. -/
theorem C5_unequal_lengths_shape_mismatch_witness :
    (TransformTranslationCPU.ofSpec ⟨.PerSample, []⟩ : TransformTranslationCPU Int).offset_.mode
        = .PerSample ∧
    ([[1, 2], [3, 4, 5]] : List (List Int))[0]? = some [1, 2] ∧
    ([[1, 2], [3, 4, 5]] : List (List Int))[1]? = some [3, 4, 5] ∧
    ([1, 2] : List Int).length ≠ ([3, 4, 5] : List Int).length ∧
    (TransformTranslationCPU.ofSpec ⟨.PerSample, []⟩ : TransformTranslationCPU Int).ProcessArgs
        ⟨.PerSample, []⟩ ⟨2, [[1, 2], [3, 4, 5]]⟩ = .error .ShapeMismatch :=
  ⟨rfl, rfl, rfl, by decide,
    C5_unequal_lengths_shape_mismatch _ ⟨.PerSample, []⟩ ⟨2, [[1, 2], [3, 4, 5]]⟩ rfl 0 1
      [1, 2] [3, 4, 5] rfl rfl (by decide)⟩

/-- C6 (as stated, refuted): on the empty per-sample batch `ProcessArgs`
does not return normally: its read of `offset_[0]` is out of range, and so
the batch invocation yields no result. -/
theorem C6_empty_batch_counterexample :
    (TransformTranslationCPU.ofSpec ⟨.PerSample, []⟩ : TransformTranslationCPU Int).ProcessArgs
        ⟨.PerSample, []⟩ ⟨0, []⟩ = .error .OutOfRange ∧
    ¬ ∃ b, (TransformTranslationCPU.ofSpec ⟨.PerSample, []⟩ : TransformTranslationCPU Int).processBatch
        ⟨.PerSample, []⟩ ⟨0, []⟩ = .ok b := by
  refine ⟨rfl, ?_⟩
  rintro ⟨b, hb⟩
  have h : (TransformTranslationCPU.ofSpec ⟨.PerSample, []⟩ : TransformTranslationCPU Int).processBatch
      ⟨.PerSample, []⟩ ⟨0, []⟩ = .error .OutOfRange := rfl
  rw [h] at hb
  cases hb

/-- C6 (amended): an empty batch is a no-op for the generator only.  When
argument resolution yields an empty batch, `DefineTransforms` on the empty
span, for any matrix dimension, raises no error, performs no out-of-range
access and produces zero matrices; `ProcessArgs` reads `offset_[0]`
unconditionally, and on the empty batch that read is out of range. -/
theorem C6_empty_batch {T : Type} [Zero T] [One T] (op : TransformTranslationCPU T)
    (spec : OpSpec T) (ws : workspace_t T) (a : Argument T)
    (hread : op.offset_.Read spec ws = .ok a) (hempty : a.data = [])
    (mat_dim ndim : Nat) :
    (TransformTranslationCPU.mk a ndim).DefineTransforms mat_dim [] = .ok [] ∧
    op.ProcessArgs spec ws = .error .OutOfRange := by
  constructor
  · have h := DefineTransforms_eq (TransformTranslationCPU.mk a ndim) mat_dim []
      (by simp [Argument.size, hempty]) (by simp [hempty])
    simpa [hempty] using h
  · rw [ProcessArgs_eq op spec ws a hread, hempty]

/-- Witness for C6 (amended): the empty per-sample batch. -/
theorem C6_empty_batch_witness :
    ((TransformTranslationCPU.ofSpec ⟨.PerSample, []⟩ : TransformTranslationCPU Int).offset_.Read
        ⟨.PerSample, []⟩ ⟨0, []⟩ = .ok ⟨.PerSample, []⟩) ∧
    ((TransformTranslationCPU.mk (⟨.PerSample, []⟩ : Argument Int) 2).DefineTransforms 3 []
        = .ok [] ∧
      (TransformTranslationCPU.ofSpec ⟨.PerSample, []⟩ : TransformTranslationCPU Int).ProcessArgs
        ⟨.PerSample, []⟩ ⟨0, []⟩ = .error .OutOfRange) :=
  ⟨rfl, C6_empty_batch (TransformTranslationCPU.ofSpec ⟨.PerSample, []⟩) ⟨.PerSample, []⟩
    ⟨0, []⟩ ⟨.PerSample, []⟩ rfl rfl 3 2⟩

/-! ## Dimension dispatch -/

/-- C9: `IsConstantTransform()` is true iff the offset was supplied as a
constant, and false exactly when it is supplied as a per-sample argument
input; for an operator constructed from `spec` the answer is determined by
how `spec` supplies the offset, and argument resolution does not change it. -/
theorem C9_IsConstantTransform {T : Type} (op : TransformTranslationCPU T) :
    (op.IsConstantTransform = true ↔ op.offset_.mode = .Constant) ∧
    (op.IsConstantTransform = false ↔ op.offset_.mode = .PerSample) ∧
    (op.IsConstantTransform = false ↔ op.offset_.IsArgInput = true) ∧
    (∀ spec : OpSpec T,
      ((TransformTranslationCPU.ofSpec spec).IsConstantTransform = true
        ↔ spec.offset_mode = .Constant)) ∧
    (∀ (spec : OpSpec T) (ws : workspace_t T) (op' : TransformTranslationCPU T),
      op.ProcessArgs spec ws = .ok op' → op'.IsConstantTransform = op.IsConstantTransform) := by
  refine ⟨?_, ?_, ?_, ?_, ?_⟩
  · unfold TransformTranslationCPU.IsConstantTransform Argument.IsArgInput
    cases op.offset_.mode <;> simp
  · unfold TransformTranslationCPU.IsConstantTransform Argument.IsArgInput
    cases op.offset_.mode <;> simp
  · unfold TransformTranslationCPU.IsConstantTransform
    cases op.offset_.IsArgInput <;> simp
  · intro spec
    unfold TransformTranslationCPU.IsConstantTransform Argument.IsArgInput
      TransformTranslationCPU.ofSpec Argument.ofSpec
    cases spec.offset_mode <;> simp
  · intro spec ws op' h
    have hmode : ∀ a, op.offset_.Read spec ws = .ok a → a.mode = op.offset_.mode := by
      intro a ha
      unfold Argument.Read at ha
      cases hm : op.offset_.mode with
      | Constant =>
        simp only [hm, Except.ok.injEq] at ha
        rw [← ha]
      | PerSample =>
        simp only [hm] at ha
        by_cases hu : is_uniform ws.offset_input = true
        · simp only [hu, if_true, Except.ok.injEq] at ha
          rw [← ha]
        · simp [hu] at ha
    cases hr : op.offset_.Read spec ws with
    | error e =>
      unfold TransformTranslationCPU.ProcessArgs at h
      simp [IsDefined_eq_true, hr, bind, Except.bind] at h
    | ok a =>
      rw [ProcessArgs_eq op spec ws a hr] at h
      cases hd : a.data with
      | nil => simp [hd] at h
      | cons first rest =>
        simp only [hd, Except.ok.injEq] at h
        subst h
        simp only [TransformTranslationCPU.IsConstantTransform, Argument.IsArgInput, hmode a hr]

/-- Witness for C9: a constant offset answers `true`, a per-sample offset
answers `false`, also after argument resolution. -/
theorem C9_IsConstantTransform_witness :
    (TransformTranslationCPU.ofSpec (⟨.Constant, [1, 2]⟩ : OpSpec Int)).IsConstantTransform = true ∧
    (TransformTranslationCPU.ofSpec (⟨.PerSample, []⟩ : OpSpec Int)).IsConstantTransform = false ∧
    exampleOp.IsConstantTransform
      = (TransformTranslationCPU.ofSpec (⟨.PerSample, []⟩ : OpSpec Int)).IsConstantTransform :=
  ⟨((C9_IsConstantTransform (TransformTranslationCPU.ofSpec
      (⟨.Constant, [1, 2]⟩ : OpSpec Int))).2.2.2.1 ⟨.Constant, [1, 2]⟩).mpr rfl,
    (C9_IsConstantTransform (TransformTranslationCPU.ofSpec
      (⟨.PerSample, []⟩ : OpSpec Int))).2.1.mpr rfl,
    (C9_IsConstantTransform (TransformTranslationCPU.ofSpec (⟨.PerSample, []⟩ : OpSpec Int))).2.2.2.2
      ⟨.PerSample, []⟩ ⟨2, [[1, 2], [3, 4]]⟩ exampleOp rfl⟩

/-! ## Per-sample independence -/

/-- C10: per-sample independence of `DefineTransforms`.  For two well-formed
batches (one slot per sample, every sample with at least `mat_dim - 1`
values) whose offsets agree at index `i`, whatever the other samples, the
batch sizes and the previous contents of the output spans are, both calls
succeed and write the same matrix to slot `i`; that matrix is determined by
the offset of sample `i` alone. -/
theorem C10_per_sample_independence {T : Type} [Zero T] [One T] (mat_dim : Nat)
    (op1 op2 : TransformTranslationCPU T) (ms1 ms2 : List (affine_mat_t T mat_dim))
    (hlen1 : ms1.length = op1.offset_.size) (hlen2 : ms2.length = op2.offset_.size)
    (hoff1 : ∀ o ∈ op1.offset_.data, mat_dim - 1 ≤ o.length)
    (hoff2 : ∀ o ∈ op2.offset_.data, mat_dim - 1 ≤ o.length)
    (i : Nat) (offset : List T) (hi1 : op1.offset_.data[i]? = some offset)
    (hi2 : op2.offset_.data[i]? = some offset) :
    ∃ out1 out2 mat, op1.DefineTransforms mat_dim ms1 = .ok out1 ∧
      op2.DefineTransforms mat_dim ms2 = .ok out2 ∧
      out1[i]? = some mat ∧ out2[i]? = some mat ∧
      DefineTransforms.fill mat_dim offset affine_mat_t.identity = .ok mat := by
  have hoi : mat_dim - 1 ≤ offset.length := hoff1 _ (List.getElem?_mem hi1)
  refine ⟨_, _, translationMatrix mat_dim offset,
    DefineTransforms_eq op1 mat_dim ms1 hlen1 hoff1,
    DefineTransforms_eq op2 mat_dim ms2 hlen2 hoff2, ?_, ?_, fill_eq mat_dim offset hoi⟩
  · simp [List.getElem?_map, hi1]
  · simp [List.getElem?_map, hi2]

/-- Witness for C10: two batches of size 2 that agree on sample 1 only. -/
theorem C10_per_sample_independence_witness :
    ∃ out1 out2 mat,
      exampleOp.DefineTransforms 3 [0, 0] = .ok out1 ∧
      (⟨⟨.PerSample, [[9, 8], [3, 4]]⟩, 2⟩ : TransformTranslationCPU Int).DefineTransforms 3 [1, 1]
        = .ok out2 ∧
      out1[1]? = some mat ∧ out2[1]? = some mat ∧
      DefineTransforms.fill 3 [3, 4] affine_mat_t.identity = .ok mat :=
  C10_per_sample_independence 3 exampleOp ⟨⟨.PerSample, [[9, 8], [3, 4]]⟩, 2⟩ [0, 0] [1, 1]
    rfl rfl (by decide) (by decide) 1 [3, 4] rfl rfl

/-! ## Constant mode -/

/-- C11: constant mode is batch-uniform.  When the offset is the constant
vector `v` (with at least `mat_dim - 1` values), `IsConstantTransform` is
true and there is one matrix `M`, the translation by `v`, such that for
every batch size `N` argument resolution yields `N` samples, each equal to
`v`, and `DefineTransforms` writes `M` to every one of the `N` slots; `M`
depends neither on `N` nor on the sample index. -/
theorem C11_constant_mode_uniform {T : Type} [Zero T] [One T]
    (op : TransformTranslationCPU T) (spec : OpSpec T) (mat_dim : Nat)
    (hmode : op.offset_.mode = .Constant)
    (hv : mat_dim - 1 ≤ spec.offset_constant.length) :
    op.IsConstantTransform = true ∧
    ∃ M, DefineTransforms.fill mat_dim spec.offset_constant affine_mat_t.identity = .ok M ∧
      ∀ (ws : workspace_t T) (matrices : List (affine_mat_t T mat_dim)) (ndim : Nat),
        matrices.length = ws.batch_size →
        ∃ a, op.offset_.Read spec ws = .ok a ∧ a.size = ws.batch_size ∧
          (∀ i, i < ws.batch_size → a.get i = .ok spec.offset_constant) ∧
          (0 < ws.batch_size →
            op.ProcessArgs spec ws = .ok ⟨a, spec.offset_constant.length⟩) ∧
          ∃ out, (TransformTranslationCPU.mk a ndim).DefineTransforms mat_dim matrices = .ok out ∧
            out.length = ws.batch_size ∧ ∀ i, i < ws.batch_size → out[i]? = some M := by
  refine ⟨?_, translationMatrix mat_dim spec.offset_constant,
    fill_eq mat_dim spec.offset_constant hv, ?_⟩
  · simp [TransformTranslationCPU.IsConstantTransform, Argument.IsArgInput, hmode]
  · intro ws matrices ndim hlen
    have hread : op.offset_.Read spec ws
        = .ok { op.offset_ with data := List.replicate ws.batch_size spec.offset_constant } := by
      simp [Argument.Read, hmode]
    refine ⟨_, hread, by simp [Argument.size], ?_, ?_, ?_⟩
    · intro i hi
      simp [Argument.get, vecGet, List.getElem?_replicate, hi]
    · intro hpos
      rw [ProcessArgs_eq op spec ws _ hread]
      obtain ⟨n, hn⟩ : ∃ n, ws.batch_size = n + 1 := ⟨ws.batch_size - 1, by omega⟩
      simp [hn, List.replicate_succ]
    · have h := DefineTransforms_eq
        (TransformTranslationCPU.mk
          { op.offset_ with data := List.replicate ws.batch_size spec.offset_constant } ndim)
        mat_dim matrices (by simp [Argument.size, hlen])
        (by
          intro o ho
          rw [List.eq_of_mem_replicate ho]
          exact hv)
      refine ⟨_, h, by simp, ?_⟩
      intro i hi
      simp [List.getElem?_replicate, hi]

/-- Witness for C11: the constant offset `[1, 2]` on a batch of size 4. -/
theorem C11_constant_mode_uniform_witness :
    (TransformTranslationCPU.ofSpec (⟨.Constant, [1, 2]⟩ : OpSpec Int)).IsConstantTransform = true ∧
    (∃ M, DefineTransforms.fill 3 [1, 2] affine_mat_t.identity = .ok M ∧
      ∀ (ws : workspace_t Int) (matrices : List (affine_mat_t Int 3)) (ndim : Nat),
        matrices.length = ws.batch_size →
        ∃ a, (TransformTranslationCPU.ofSpec (⟨.Constant, [1, 2]⟩ : OpSpec Int)).offset_.Read
            ⟨.Constant, [1, 2]⟩ ws = .ok a ∧ a.size = ws.batch_size ∧
          (∀ i, i < ws.batch_size → a.get i = .ok [1, 2]) ∧
          (0 < ws.batch_size →
            (TransformTranslationCPU.ofSpec (⟨.Constant, [1, 2]⟩ : OpSpec Int)).ProcessArgs
              ⟨.Constant, [1, 2]⟩ ws = .ok ⟨a, 2⟩) ∧
          ∃ out, (TransformTranslationCPU.mk a ndim).DefineTransforms 3 matrices = .ok out ∧
            out.length = ws.batch_size ∧ ∀ i, i < ws.batch_size → out[i]? = some M) ∧
    (fun b => b.matrices.map affine_mat_t.toLists) <$>
        (TransformTranslationCPU.ofSpec (⟨.Constant, [1, 2]⟩ : OpSpec Int)).processBatch
          ⟨.Constant, [1, 2]⟩ ⟨4, []⟩
      = .ok (List.replicate 4 [[1, 0, 1], [0, 1, 2], [0, 0, 1]]) :=
  ⟨(C11_constant_mode_uniform (TransformTranslationCPU.ofSpec (⟨.Constant, [1, 2]⟩ : OpSpec Int))
      ⟨.Constant, [1, 2]⟩ 3 rfl (by decide)).1,
    (C11_constant_mode_uniform (TransformTranslationCPU.ofSpec (⟨.Constant, [1, 2]⟩ : OpSpec Int))
      ⟨.Constant, [1, 2]⟩ 3 rfl (by decide)).2,
    rfl⟩

/-! ## Index safety and overwriting -/

/-- A successful monadic fold has run its body successfully on every element. -/
theorem foldlM_ok_step {σ α : Type} (f : σ → α → Except Error σ) :
    ∀ (l : List α) (s r : σ), l.foldlM f s = .ok r →
      ∀ x ∈ l, ∃ s' r', f s' x = .ok r' := by
  intro l
  induction l with
  | nil =>
    intro s r _ x hx
    simp at hx
  | cons a l ih =>
    intro s r h x hx
    rw [List.foldlM_cons] at h
    cases hfa : f s a with
    | error e => simp [hfa, bind, Except.bind] at h
    | ok s1 =>
      rcases List.mem_cons.mp hx with rfl | hx
      · exact ⟨s, s1, hfa⟩
      · simp only [hfa, bind, Except.bind] at h
        exact ih s1 r h x hx

/-- A failing monadic fold fails with an error of its body. -/
theorem foldlM_error_kind {σ α : Type} (f : σ → α → Except Error σ) (E : Error)
    (hf : ∀ s x e, f s x = .error e → e = E) :
    ∀ (l : List α) (s : σ) (e : Error), l.foldlM f s = .error e → e = E := by
  intro l
  induction l with
  | nil =>
    intro s e h
    simp [pure, Except.pure] at h
  | cons a l ih =>
    intro s e h
    rw [List.foldlM_cons] at h
    cases hfa : f s a with
    | error e' =>
      simp only [hfa, bind, Except.bind, Except.error.injEq] at h
      rw [← h]
      exact hf s a e' hfa
    | ok s1 =>
      simp only [hfa, bind, Except.bind] at h
      exact ih s1 e h

theorem vecGet_error {α : Type} (v : List α) (d : Nat) (e : Error)
    (h : vecGet v d = .error e) : e = .OutOfRange := by
  unfold vecGet at h
  cases hv : v[d]? with
  | none =>
    simp only [hv, Except.error.injEq] at h
    exact h.symm
  | some x => simp [hv] at h

theorem set_error {T : Type} {mat_dim : Nat} (mat : affine_mat_t T mat_dim) (r c : Nat) (v : T)
    (e : Error) (h : mat.set r c v = .error e) : e = .OutOfRange := by
  unfold affine_mat_t.set at h
  by_cases hb : r < mat_dim ∧ c < mat_dim
  · simp [hb] at h
  · simp only [hb, if_false, Except.error.injEq] at h
    exact h.symm

/-- The inner loop can only fail with an out-of-range access. -/
theorem fill_error {T : Type} (mat_dim : Nat) (offset : List T) (mat : affine_mat_t T mat_dim)
    (e : Error) (h : DefineTransforms.fill mat_dim offset mat = .error e) : e = .OutOfRange := by
  unfold DefineTransforms.fill at h
  refine foldlM_error_kind _ .OutOfRange ?_ _ _ e h
  intro s d e' hs
  cases hg : vecGet offset d with
  | error e1 =>
    simp only [hg, bind, Except.bind, Except.error.injEq] at hs
    rw [← hs]
    exact vecGet_error offset d e1 hg
  | ok x =>
    simp only [hg, bind, Except.bind] at hs
    exact set_error s d (mat_dim - 1) x e' hs

/-- The inner loop succeeds only on an offset with at least `mat_dim - 1` values. -/
theorem fill_ok_length {T : Type} (mat_dim : Nat) (offset : List T)
    (mat r : affine_mat_t T mat_dim) (h : DefineTransforms.fill mat_dim offset mat = .ok r) :
    mat_dim - 1 ≤ offset.length := by
  by_contra hlt
  unfold DefineTransforms.fill at h
  obtain ⟨s', r', hs⟩ := foldlM_ok_step _ _ _ _ h offset.length
    (List.mem_range.mpr (by omega))
  simp [vecGet_of_le offset offset.length le_rfl, bind, Except.bind] at hs

/-- With the `assert` satisfied, `DefineTransforms` can only fail with an
out-of-range access. -/
theorem DefineTransforms_error {T : Type} [Zero T] [One T] (op : TransformTranslationCPU T)
    (mat_dim : Nat) (ms : List (affine_mat_t T mat_dim)) (e : Error)
    (hlen : ms.length = op.offset_.size) (h : op.DefineTransforms mat_dim ms = .error e) :
    e = .OutOfRange := by
  unfold TransformTranslationCPU.DefineTransforms at h
  rw [if_neg (by simpa using hlen)] at h
  refine foldlM_error_kind _ .OutOfRange ?_ _ _ e h
  intro s i e' hs
  cases h1 : vecGet s i with
  | error e1 =>
    simp only [h1, bind, Except.bind, Except.error.injEq] at hs
    rw [← hs]
    exact vecGet_error s i e1 h1
  | ok m =>
    cases h2 : op.offset_.get i with
    | error e2 =>
      simp only [h1, h2, bind, Except.bind, Except.error.injEq] at hs
      rw [← hs]
      exact vecGet_error _ i e2 h2
    | ok offset =>
      cases h3 : DefineTransforms.fill mat_dim offset (affine_mat_t.identity (T := T)) with
      | error e3 =>
        simp only [h1, h2, h3, bind, Except.bind, Except.error.injEq] at hs
        rw [← hs]
        exact fill_error mat_dim offset _ e3 h3
      | ok mat =>
        simp [h1, h2, h3, bind, Except.bind, pure, Except.pure] at hs

/-- Success of `DefineTransforms` implies its preconditions: one slot per
sample and every sample with at least `mat_dim - 1` values. -/
theorem DefineTransforms_ok_length {T : Type} [Zero T] [One T] (op : TransformTranslationCPU T)
    (mat_dim : Nat) (ms out : List (affine_mat_t T mat_dim))
    (h : op.DefineTransforms mat_dim ms = .ok out) :
    ms.length = op.offset_.size ∧ ∀ o ∈ op.offset_.data, mat_dim - 1 ≤ o.length := by
  unfold TransformTranslationCPU.DefineTransforms at h
  by_cases hlen : ms.length = op.offset_.size
  · rw [if_neg (by simpa using hlen)] at h
    refine ⟨hlen, ?_⟩
    intro o ho
    obtain ⟨i, hi, rfl⟩ := List.getElem_of_mem ho
    have hi' : i < ms.length := by
      rw [hlen]
      exact hi
    obtain ⟨s', r', hs⟩ := foldlM_ok_step _ _ _ _ h i (List.mem_range.mpr hi')
    cases h1 : vecGet s' i with
    | error e1 => simp [h1, bind, Except.bind] at hs
    | ok m =>
      have h2 : op.offset_.get i = .ok op.offset_.data[i] := vecGet_of_lt _ i hi
      cases h3 : DefineTransforms.fill mat_dim op.offset_.data[i]
          (affine_mat_t.identity (T := T)) with
      | error e3 => simp [h1, h2, h3, bind, Except.bind] at hs
      | ok mat => exact fill_ok_length mat_dim _ _ mat h3
  · rw [if_pos (by simpa using hlen)] at h
    cases h

/-- With the `assert` satisfied and a sample shorter than `mat_dim - 1`,
`DefineTransforms` runs into an out-of-range read. -/
theorem DefineTransforms_short {T : Type} [Zero T] [One T] (op : TransformTranslationCPU T)
    (mat_dim : Nat) (ms : List (affine_mat_t T mat_dim))
    (hlen : ms.length = op.offset_.size) (o : List T) (ho : o ∈ op.offset_.data)
    (hshort : o.length < mat_dim - 1) :
    op.DefineTransforms mat_dim ms = .error .OutOfRange := by
  cases hD : op.DefineTransforms mat_dim ms with
  | ok out =>
    have := (DefineTransforms_ok_length op mat_dim ms out hD).2 o ho
    omega
  | error e =>
    rw [DefineTransforms_error op mat_dim ms e hlen hD]

/-- C13: index safety of `DefineTransforms`.  With one output slot per
resolved offset (the `assert`): if every sample has at least
`ndim = mat_dim - 1` values, the call returns normally and every access of
the loops is in bounds (`i` is below the number of offsets, `d` is below the
length of offset `i`, and `(d, ndim)` is an entry of the matrix); if some
sample is shorter than `ndim`, a read `offset[d]` with `d < ndim` is out of
range and the call ends in `OutOfRange`. -/
theorem C13_index_safety {T : Type} [Zero T] [One T] (op : TransformTranslationCPU T)
    (mat_dim : Nat) (matrices : List (affine_mat_t T mat_dim))
    (hlen : matrices.length = op.offset_.size) :
    ((∀ o ∈ op.offset_.data, mat_dim - 1 ≤ o.length) →
      (∃ out, op.DefineTransforms mat_dim matrices = .ok out) ∧
      ∀ i, i < matrices.length →
        i < op.offset_.size ∧
        ∃ offset, op.offset_.get i = .ok offset ∧
          ∀ d, d < mat_dim - 1 →
            d < offset.length ∧ (∃ x, vecGet offset d = .ok x) ∧
            (d < mat_dim ∧ mat_dim - 1 < mat_dim) ∧
            ∀ (mat : affine_mat_t T mat_dim) (x : T),
              ∃ mat', mat.set d (mat_dim - 1) x = .ok mat') ∧
    ((∃ o ∈ op.offset_.data, o.length < mat_dim - 1) →
      op.DefineTransforms mat_dim matrices = .error .OutOfRange ∧
      ∃ i offset, i < matrices.length ∧ op.offset_.get i = .ok offset ∧
        ∃ d, d < mat_dim - 1 ∧ vecGet offset d = .error .OutOfRange) := by
  constructor
  · intro hoff
    refine ⟨⟨_, DefineTransforms_eq op mat_dim matrices hlen hoff⟩, ?_⟩
    intro i hi
    have hi' : i < op.offset_.data.length := by
      have hl : matrices.length = op.offset_.data.length := hlen
      omega
    refine ⟨hi', op.offset_.data[i], vecGet_of_lt _ i hi', ?_⟩
    intro d hd
    have hdl : d < op.offset_.data[i].length :=
      Nat.lt_of_lt_of_le hd (hoff _ (List.getElem_mem hi'))
    have hb : d < mat_dim ∧ mat_dim - 1 < mat_dim := by omega
    refine ⟨hdl, ⟨_, vecGet_of_lt _ d hdl⟩, hb, ?_⟩
    intro mat x
    refine ⟨fun r' c' => if r'.val = d ∧ c'.val = mat_dim - 1 then x else mat r' c', ?_⟩
    simp only [affine_mat_t.set, hb, and_self, if_true]
  · rintro ⟨o, ho, hshort⟩
    refine ⟨DefineTransforms_short op mat_dim matrices hlen o ho hshort, ?_⟩
    obtain ⟨i, hi, rfl⟩ := List.getElem_of_mem ho
    have hi' : i < matrices.length := by
      rw [hlen]
      exact hi
    exact ⟨i, _, hi', vecGet_of_lt _ i hi, _, hshort, vecGet_of_le _ _ le_rfl⟩

/-- Witness for C13: the batch `[1, 2]`, `[3, 4]` at `mat_dim = 3` is safe; the
batch `[1, 2]`, `[3]` at `mat_dim = 3` reads `offset[1]` of sample 1 out of
range. -/
theorem C13_index_safety_witness :
    (([0, 0] : List (affine_mat_t Int 3)).length = exampleOp.offset_.size ∧
      (∀ o ∈ exampleOp.offset_.data, 3 - 1 ≤ o.length) ∧
      ∃ out, exampleOp.DefineTransforms 3 [0, 0] = .ok out) ∧
    (([0, 0] : List (affine_mat_t Int 3)).length
        = (⟨⟨.PerSample, [[1, 2], [3]]⟩, 2⟩ : TransformTranslationCPU Int).offset_.size ∧
      (∃ o ∈ (⟨⟨.PerSample, [[1, 2], [3]]⟩, 2⟩ : TransformTranslationCPU Int).offset_.data,
        o.length < 3 - 1) ∧
      (⟨⟨.PerSample, [[1, 2], [3]]⟩, 2⟩ : TransformTranslationCPU Int).DefineTransforms 3 [0, 0]
        = .error .OutOfRange) :=
  ⟨⟨rfl, by decide, ((C13_index_safety exampleOp 3 [0, 0] rfl).1 (by decide)).1⟩,
    rfl, ⟨[3], by decide, by decide⟩,
    ((C13_index_safety ⟨⟨.PerSample, [[1, 2], [3]]⟩, 2⟩ 3 [0, 0] rfl).2
      ⟨[3], by decide, by decide⟩).1⟩

/-- C14: `DefineTransforms` fully overwrites its output.  For every batch of
offsets and any two initial contents of the output span of the same length
the outcome is the same; when the call returns, the span keeps its length and
a second run with the same offsets leaves the output unchanged; and on a
well-formed batch (one slot per sample, at least `mat_dim - 1` values per
sample) the call does return. -/
theorem C14_full_overwrite {T : Type} [Zero T] [One T] (op : TransformTranslationCPU T)
    (mat_dim : Nat) (ms1 ms2 : List (affine_mat_t T mat_dim))
    (hsame : ms1.length = ms2.length) :
    op.DefineTransforms mat_dim ms1 = op.DefineTransforms mat_dim ms2 ∧
    (∀ out, op.DefineTransforms mat_dim ms1 = .ok out →
      out.length = ms1.length ∧ op.DefineTransforms mat_dim out = .ok out) ∧
    (ms1.length = op.offset_.size → (∀ o ∈ op.offset_.data, mat_dim - 1 ≤ o.length) →
      ∃ out, op.DefineTransforms mat_dim ms1 = .ok out ∧
        op.DefineTransforms mat_dim ms2 = .ok out ∧
        out.length = ms1.length ∧ op.DefineTransforms mat_dim out = .ok out) := by
  have hidem : ∀ (ms : List (affine_mat_t T mat_dim)), ms.length = op.offset_.size →
      (∀ o ∈ op.offset_.data, mat_dim - 1 ≤ o.length) →
      (op.offset_.data.map (translationMatrix mat_dim)).length = ms.length ∧
      op.DefineTransforms mat_dim (op.offset_.data.map (translationMatrix mat_dim))
        = .ok (op.offset_.data.map (translationMatrix mat_dim)) := by
    intro ms hlen hoff
    refine ⟨?_, DefineTransforms_eq op mat_dim _ ?_ hoff⟩
    · rw [List.length_map]
      exact hlen.symm
    · rw [List.length_map]
      rfl
  refine ⟨?_, ?_, ?_⟩
  · by_cases hlen : ms1.length = op.offset_.size
    · by_cases hoff : ∀ o ∈ op.offset_.data, mat_dim - 1 ≤ o.length
      · rw [DefineTransforms_eq op mat_dim ms1 hlen hoff,
          DefineTransforms_eq op mat_dim ms2 (hsame ▸ hlen) hoff]
      · have hex : ∃ o ∈ op.offset_.data, o.length < mat_dim - 1 := by
          by_contra hne
          apply hoff
          intro o ho
          by_contra hlt
          exact hne ⟨o, ho, by omega⟩
        obtain ⟨o, ho, hshort⟩ := hex
        rw [DefineTransforms_short op mat_dim ms1 hlen o ho hshort,
          DefineTransforms_short op mat_dim ms2 (hsame ▸ hlen) o ho hshort]
    · have hlen2 : ¬ ms2.length = op.offset_.size := hsame ▸ hlen
      unfold TransformTranslationCPU.DefineTransforms
      rw [if_pos (by simpa using hlen), if_pos (by simpa using hlen2)]
  · intro out hout
    obtain ⟨hlen, hoff⟩ := DefineTransforms_ok_length op mat_dim ms1 out hout
    rw [DefineTransforms_eq op mat_dim ms1 hlen hoff, Except.ok.injEq] at hout
    rw [← hout]
    exact hidem ms1 hlen hoff
  · intro hlen hoff
    exact ⟨_, DefineTransforms_eq op mat_dim ms1 hlen hoff,
      DefineTransforms_eq op mat_dim ms2 (hsame ▸ hlen) hoff, hidem ms1 hlen hoff⟩

/-- Witness for C14: two different initial spans for the batch `[1, 2]`,
`[3, 4]`. -/
theorem C14_full_overwrite_witness :
    ([0, 0] : List (affine_mat_t Int 3)).length = ([1, 1] : List (affine_mat_t Int 3)).length ∧
    exampleOp.DefineTransforms 3 [0, 0] = exampleOp.DefineTransforms 3 [1, 1] ∧
    (∃ out, exampleOp.DefineTransforms 3 [0, 0] = .ok out ∧
      exampleOp.DefineTransforms 3 [1, 1] = .ok out ∧
      out.length = ([0, 0] : List (affine_mat_t Int 3)).length ∧
      exampleOp.DefineTransforms 3 out = .ok out) :=
  ⟨rfl, (C14_full_overwrite exampleOp 3 [0, 0] [1, 1] rfl).1,
    (C14_full_overwrite exampleOp 3 [0, 0] [1, 1] rfl).2.2 rfl (by decide)⟩

/-! ## Composition with an input matrix -/

theorem translationMatrix_withImplicitLastRow {T : Type} [Zero T] [One T] (mat_dim : Nat)
    (v : List T) :
    (translationMatrix mat_dim v).withImplicitLastRow = translationMatrix mat_dim v := by
  funext r c
  by_cases hr : r.val < mat_dim - 1
  · simp [affine_mat_t.withImplicitLastRow, hr]
  · simp [affine_mat_t.withImplicitLastRow, translationMatrix, hr]

/-- A row of the affine part of `translation * A`: the row of `A` plus the
offset value times the last row of `A`. -/
theorem translationMatrix_mul_apply {T : Type} [Semiring T] (mat_dim : Nat) (v : List T)
    (A : affine_mat_t T mat_dim) (r c : Fin mat_dim) (hr : r.val < mat_dim - 1) :
    (translationMatrix mat_dim v * A) r c
      = A r c + v.getD r.val 0 * A ⟨mat_dim - 1, by omega⟩ c := by
  have hlast : mat_dim - 1 < mat_dim := by omega
  have hr' : ¬ r.val = mat_dim - 1 := by omega
  have hne : r ≠ (⟨mat_dim - 1, hlast⟩ : Fin mat_dim) := by
    intro e
    exact hr' (congrArg Fin.val e)
  rw [Matrix.mul_apply,
    Finset.sum_eq_add_of_mem r ⟨mat_dim - 1, hlast⟩ (Finset.mem_univ _) (Finset.mem_univ _) hne]
  · simp [translationMatrix, affine_mat_t.identity, hr, hr']
  · intro k _ hk
    have hk1 : ¬ r = k := fun e => hk.1 e.symm
    have hk2 : ¬ k.val = mat_dim - 1 := by
      intro e
      exact hk.2 (Fin.ext e)
    simp [translationMatrix, affine_mat_t.identity, hk1, hk2]

/-- The last row of `translation * A` is the last row of `A`. -/
theorem translationMatrix_mul_apply_last {T : Type} [Semiring T] (mat_dim : Nat) (v : List T)
    (A : affine_mat_t T mat_dim) (r c : Fin mat_dim) (hr : ¬ r.val < mat_dim - 1) :
    (translationMatrix mat_dim v * A) r c = A r c := by
  rw [Matrix.mul_apply, Finset.sum_eq_single r]
  · simp [translationMatrix, affine_mat_t.identity, hr]
  · intro k _ hk
    have hk1 : ¬ r = k := fun e => hk e.symm
    simp [translationMatrix, affine_mat_t.identity, hr, hk1]
  · intro hmem
    exact absurd (Finset.mem_univ r) hmem

/-- Composing a translation with an input keeps the homogeneous product. -/
theorem affine_compose_translation {T : Type} [Semiring T] (mat_dim : Nat) (v : List T)
    (m : affine_mat_t T mat_dim) :
    affine_compose (translationMatrix mat_dim v) m
      = translationMatrix mat_dim v * m.withImplicitLastRow := by
  unfold affine_compose
  rw [translationMatrix_withImplicitLastRow]
  funext r c
  by_cases hr : r.val < mat_dim - 1
  · simp [affine_mat_t.withImplicitLastRow, hr]
  · rw [translationMatrix_mul_apply_last mat_dim v _ r c hr]
    simp [affine_mat_t.withImplicitLastRow, hr]

theorem composeBatch_eq {T : Type} [Semiring T] {mat_dim : Nat} :
    ∀ (gs ms : List (affine_mat_t T mat_dim)), gs.length ≤ ms.length →
      composeBatch gs ms = .ok (List.zipWith affine_compose gs ms) := by
  intro gs
  induction gs with
  | nil =>
    intro ms _
    simp [composeBatch]
  | cons g gs ih =>
    intro ms h
    cases ms with
    | nil => simp at h
    | cons m ms =>
      have h' : gs.length ≤ ms.length := by simpa using h
      simp [composeBatch, ih ms h', bind, Except.bind, pure, Except.pure]

/-- C12: composition with a prior input matrix.  For a resolved `ndim_` in
`1..6`, a batch whose samples all carry `ndim_` values and an input batch
with one `(ndim_ + 1) × (ndim_ + 1)` matrix per sample, the operator
succeeds and, for every sample `i` with offset `v`, generated matrix `g` and
input matrix `m`, the output is the product `g * m` with `m` read as an
affine matrix (last row `[0, ..., 0, 1]`); it is `g * m` itself when `m`
carries that last row; the last row of the output is `[0, ..., 0, 1]`, its
linear part is the linear part of `m`, and its translation is the
translation of `m` plus `v`. -/
theorem C12_composition_with_input {T : Type} [Semiring T] (op : TransformTranslationCPU T)
    (inputs : List (affine_mat_t T (op.ndim_ + 1)))
    (hdim : 1 ≤ op.ndim_ ∧ op.ndim_ ≤ 6)
    (hoff : ∀ o ∈ op.offset_.data, o.length = op.ndim_)
    (hin : inputs.length = op.offset_.size) :
    ∃ generated out,
      op.RunImpl = .ok ⟨op.ndim_ + 1, generated⟩ ∧
      op.RunImplWithInput ⟨op.ndim_ + 1, inputs⟩ = .ok ⟨op.ndim_ + 1, out⟩ ∧
      out.length = inputs.length ∧
      ∀ (i : Nat) (v : List T) (m : affine_mat_t T (op.ndim_ + 1)),
        op.offset_.data[i]? = some v → inputs[i]? = some m →
        ∃ g o, generated[i]? = some g ∧ out[i]? = some o ∧
          o = g * m.withImplicitLastRow ∧
          ((∀ c, m (Fin.last op.ndim_) c = if c = Fin.last op.ndim_ then 1 else 0) →
            o = g * m) ∧
          (∀ c, o (Fin.last op.ndim_) c = if c = Fin.last op.ndim_ then 1 else 0) ∧
          (∀ r c : Fin (op.ndim_ + 1), r.val < op.ndim_ → c.val < op.ndim_ →
            o r c = m r c) ∧
          (∀ r : Fin (op.ndim_ + 1), r.val < op.ndim_ →
            o r (Fin.last op.ndim_) = m r (Fin.last op.ndim_) + v.getD r.val 0) := by
  have hoff' : ∀ o ∈ op.offset_.data, op.ndim_ + 1 - 1 ≤ o.length := by
    intro o ho
    rw [hoff o ho]
    exact Nat.le_refl _
  have hgen := DefineTransforms_eq op (op.ndim_ + 1)
    (List.replicate op.offset_.size (fun _ _ => 0)) (by simp) hoff'
  have hlen : (op.offset_.data.map (translationMatrix (op.ndim_ + 1))).length ≤ inputs.length := by
    rw [List.length_map, hin]
    exact Nat.le_refl _
  refine ⟨op.offset_.data.map (translationMatrix (op.ndim_ + 1)),
    List.zipWith affine_compose (op.offset_.data.map (translationMatrix (op.ndim_ + 1))) inputs,
    RunImpl_eq op hdim hoff, ?_, ?_, ?_⟩
  · unfold TransformTranslationCPU.RunImplWithInput
    rw [if_pos ((mem_SupportedDims _).mpr hdim), dif_pos rfl]
    simp only [hgen, bind, Except.bind, composeBatch_eq _ _ hlen, pure, Except.pure]
  · rw [List.length_zipWith, List.length_map, hin]
    simp [Argument.size]
  · intro i v m hv hm
    refine ⟨translationMatrix (op.ndim_ + 1) v, affine_compose (translationMatrix (op.ndim_ + 1) v) m,
      by simp [List.getElem?_map, hv], by simp [List.getElem?_zipWith, List.getElem?_map, hv, hm],
      affine_compose_translation _ v m, ?_, ?_, ?_, ?_⟩
    · intro hm_last
      rw [affine_compose_translation]
      congr 1
      funext r c
      by_cases hr : r.val < op.ndim_ + 1 - 1
      · have hr2 : r.val < op.ndim_ := by simpa using hr
        simp [affine_mat_t.withImplicitLastRow, hr2]
      · have hrl : r = Fin.last op.ndim_ := by
          apply Fin.ext
          have := r.isLt
          simp only [Fin.val_last]
          omega
        rw [hrl, hm_last c]
        simp [affine_mat_t.withImplicitLastRow, affine_mat_t.identity, eq_comm]
    · intro c
      rw [affine_compose_translation,
        translationMatrix_mul_apply_last _ v _ _ c (by simp)]
      simp [affine_mat_t.withImplicitLastRow, affine_mat_t.identity, eq_comm]
    · intro r c hr hc
      have hr' : r.val < op.ndim_ + 1 - 1 := by simpa using hr
      have hcl : ∀ h : op.ndim_ < op.ndim_ + 1,
          ¬ (⟨op.ndim_, h⟩ : Fin (op.ndim_ + 1)) = c := by
        intro h e
        have := congrArg Fin.val e
        simp at this
        omega
      rw [affine_compose_translation, translationMatrix_mul_apply _ v _ r c hr']
      simp [affine_mat_t.withImplicitLastRow, affine_mat_t.identity, hr, hcl]
    · intro r hr
      have hr' : r.val < op.ndim_ + 1 - 1 := by simpa using hr
      have hcl : (⟨op.ndim_ + 1 - 1, by omega⟩ : Fin (op.ndim_ + 1)) = Fin.last op.ndim_ := by
        apply Fin.ext
        simp
      rw [affine_compose_translation, translationMatrix_mul_apply _ v _ r _ hr', hcl]
      simp [affine_mat_t.withImplicitLastRow, affine_mat_t.identity, hr]

/-- Witness for C12: offsets `[1, 2]` and `[3, 4]`; the input of sample 0 is
the translation by `[5, 5]`, the input of sample 1 the identity.  The output
of sample 0 is the translation by `[6, 7]`. -/
theorem C12_composition_with_input_witness :
    (1 ≤ exampleOp.ndim_ ∧ exampleOp.ndim_ ≤ 6) ∧
    (∀ o ∈ exampleOp.offset_.data, o.length = exampleOp.ndim_) ∧
    ([translationMatrix 3 [5, 5], 1] : List (affine_mat_t Int (exampleOp.ndim_ + 1))).length
      = exampleOp.offset_.size ∧
    (∃ generated out,
      exampleOp.RunImpl = .ok ⟨exampleOp.ndim_ + 1, generated⟩ ∧
      exampleOp.RunImplWithInput ⟨exampleOp.ndim_ + 1, [translationMatrix 3 [5, 5], 1]⟩
        = .ok ⟨exampleOp.ndim_ + 1, out⟩ ∧
      out.length = 2) ∧
    (fun b => b.matrices.map affine_mat_t.toLists) <$>
        exampleOp.RunImplWithInput ⟨3, [translationMatrix 3 [5, 5], 1]⟩
      = .ok [[[1, 0, 6], [0, 1, 7], [0, 0, 1]], [[1, 0, 3], [0, 1, 4], [0, 0, 1]]] := by
  refine ⟨by decide, by decide, rfl, ?_, rfl⟩
  obtain ⟨generated, out, h1, h2, h3, _⟩ :=
    C12_composition_with_input exampleOp [translationMatrix 3 [5, 5], 1]
      (by decide) (by decide) rfl
  exact ⟨generated, out, h1, h2, h3⟩

end dali
